import Mathlib

/-!
Verification of the recursive-descent regular-expression parser of
`RE_parser.c` (Toy-Compiler).  The C program is embedded shallowly:

* `struct Node` (a content string plus `MAX_CHILDS = 4` child pointer
  slots) becomes the inductive `CNode` with four `Option CNode` slots;
* the tree-mutating functions `node_init`, `node_add_child` and
  `node_free_last_childs` become pure functions returning the updated
  node (the tree is strict — each node is owned by exactly one parent —
  so passing the updated node models pointer mutation exactly);
* `node_add_child` additionally reports whether an empty slot was found
  (the C code silently drops the child when all four slots are full);
* the mutually recursive `RE` / `RE_prime` are fuel-indexed (the outer
  `Option` layer of the result is `none` exactly when the fuel runs
  out); the driver `parse` supplies fuel `2 * length + 2`, which is
  proved sufficient.
-/

set_option maxHeartbeats 1000000

namespace REParser

/-- Parse-tree vertex mirroring `struct Node`: a content label and
`MAX_CHILDS = 4` child slots; an empty slot (`NULL`) is `none`. -/
inductive CNode : Type where
  | mk : String → Option CNode → Option CNode → Option CNode → Option CNode → CNode

/-- Content label of a node. -/
def CNode.content : CNode → String
  | .mk s _ _ _ _ => s

/-- The four child slots, in slot order `childs[0] .. childs[3]`. -/
def CNode.slots : CNode → List (Option CNode)
  | .mk _ a b c d => [a, b, c, d]

/-- Models `node_new` followed by `node_init`: a fresh node carrying the
given content with all child slots `NULL`. -/
def node_init (s : String) : CNode := .mk s none none none none

/-- Models `node_add_child`, which stores the child in the first `NULL`
slot; the boolean reports whether an empty slot was found (the C code
silently does nothing when all four slots are occupied). -/
def node_add_childF (p child : CNode) : CNode × Bool :=
  match p with
  | .mk s a b c d =>
    if a.isNone then (.mk s (some child) b c d, true)
    else if b.isNone then (.mk s a (some child) c d, true)
    else if c.isNone then (.mk s a b (some child) d, true)
    else if d.isNone then (.mk s a b c (some child), true)
    else (.mk s a b c d, false)

/-- The updated node produced by `node_add_child`. -/
def node_add_child (p child : CNode) : CNode := (node_add_childF p child).1

/-- Models `node_free_last_childs (p, n)`: scan the slots from index 3
down to index 0; every occupied slot met is freed and cleared and `n`
decremented; after each slot the loop returns as soon as `n = 0`.  The
counter is an `int` in C, hence `Int` here. -/
def node_free_last_childs (p : CNode) (n : Int) : CNode :=
  match p with
  | .mk s a b c d =>
    let n3 : Int := if d.isSome then n - 1 else n
    let d3 : Option CNode := if d.isSome then none else d
    if n3 = 0 then .mk s a b c d3 else
    let n2 : Int := if c.isSome then n3 - 1 else n3
    let c2 : Option CNode := if c.isSome then none else c
    if n2 = 0 then .mk s a b c2 d3 else
    let n1 : Int := if b.isSome then n2 - 1 else n2
    let b1 : Option CNode := if b.isSome then none else b
    if n1 = 0 then .mk s a b1 c2 d3 else
    let a0 : Option CNode := if a.isSome then none else a
    .mk s a0 b1 c2 d3

/-- Number of occupied (attached) child slots. -/
def ccount (p : CNode) : Nat :=
  match p with
  | .mk _ a b c d =>
    (if a.isSome then 1 else 0) + (if b.isSome then 1 else 0) +
    (if c.isSome then 1 else 0) + (if d.isSome then 1 else 0)

/-- The attached children in slot order (empty slots skipped). -/
def kidsList (p : CNode) : List CNode :=
  match p with
  | .mk _ a b c d => ([a, b, c, d] : List (Option CNode)).filterMap id

/-- The occupied slots form a contiguous prefix of the slot array (the
state every node reachable in a run of the parser is in, since children
are only appended to the first empty slot and only removed from the
high end). -/
def contigB (p : CNode) : Bool :=
  match p with
  | .mk _ a b c d =>
    (b.isNone || a.isSome) && (c.isNone || b.isSome) && (d.isNone || c.isSome)

/-- The character of a C string read at index `i`: past the end the C
parser reads the terminating NUL. -/
def charAt (s : List Char) (i : Nat) : Char := s.getD i (Char.ofNat 0)

/-- ASCII 39, the prime character, used in the `RE_prime` node label. -/
def primeCh : Char := Char.ofNat 39

/-- The content label of nodes created by `RE_prime`. -/
def repLab : String := "RE".push primeCh

/-- Symbol-character predicate of the `symbol` terminal: underscore,
digit (48-57), capital letter (65-90) or small letter (97-122). -/
def isSymbolChar (ch : Char) : Bool :=
  ch = '_' || (48 ≤ ch.toNat && ch.toNat ≤ 57) ||
  (65 ≤ ch.toNat && ch.toNat ≤ 90) || (97 ≤ ch.toNat && ch.toNat ≤ 122)

/-- Terminal `epsilon`: on `#` at the cursor, attach a `#` leaf and
advance; on mismatch leave the node untouched. -/
def epsilon (s : List Char) (i : Nat) (p : CNode) : Option Nat × CNode × Bool :=
  if charAt s i = '#' then
    let r := node_add_childF p (node_init "#")
    (some (i + 1), r.1, r.2)
  else (none, p, true)

/-- Terminal `symbol`: on a symbol character at the cursor, attach a
one-character leaf and advance. -/
def symbol (s : List Char) (i : Nat) (p : CNode) : Option Nat × CNode × Bool :=
  if isSymbolChar (charAt s i) then
    let r := node_add_childF p (node_init (String.mk [charAt s i]))
    (some (i + 1), r.1, r.2)
  else (none, p, true)

/-- Terminal `lpar` (character code 40). -/
def lpar (s : List Char) (i : Nat) (p : CNode) : Option Nat × CNode × Bool :=
  if charAt s i = '(' then
    let r := node_add_childF p (node_init "(")
    (some (i + 1), r.1, r.2)
  else (none, p, true)

/-- Terminal `rpar` (character code 41). -/
def rpar (s : List Char) (i : Nat) (p : CNode) : Option Nat × CNode × Bool :=
  if charAt s i = ')' then
    let r := node_add_childF p (node_init ")")
    (some (i + 1), r.1, r.2)
  else (none, p, true)

/-- Terminal `star` (character code 42). -/
def star (s : List Char) (i : Nat) (p : CNode) : Option Nat × CNode × Bool :=
  if charAt s i = '*' then
    let r := node_add_childF p (node_init "*")
    (some (i + 1), r.1, r.2)
  else (none, p, true)

/-- Terminal `plus` (character code 43). -/
def plus (s : List Char) (i : Nat) (p : CNode) : Option Nat × CNode × Bool :=
  if charAt s i = '+' then
    let r := node_add_childF p (node_init "+")
    (some (i + 1), r.1, r.2)
  else (none, p, true)

/-- Result of a nonterminal: `none` when the fuel ran out, otherwise the
cursor on success (or `none` on grammar failure), the updated parent
node, and the accumulated flag that no `node_add_child` call dropped a
child. -/
abbrev PRes := Option (Option Nat × CNode × Bool)

/-- Type of the embedded nonterminal procedures. -/
abbrev PFun := List Char → Nat → CNode → PRes

/-- Successful return of `RE` / `RE_prime`: the completed own node `e`
is attached to the caller's node (the C code attaches it on entry and
mutates it in place; attaching the final value is equivalent since
nothing else touches the parent in between). -/
def finishP (nd : CNode) (j : Nat) (e : CNode) (acc : Bool) : PRes :=
  let fin := node_add_childF nd e
  some (some j, fin.1, acc && fin.2)

/-- Failing return of `RE` / `RE_prime`: mirrors
`node_free_last_childs (p_node, 1)` removing the own node from the
caller's node. -/
def failP (nd : CNode) (e : CNode) (acc : Bool) : PRes :=
  let fin := node_add_childF nd e
  some (none, node_free_last_childs fin.1 1, acc && fin.2)

/-- Alternative `RE_prime -> *` (the last alternative; on failure the
whole `RE_prime` call fails). -/
def REp_alt6 (nd : CNode) (s : List Char) (i : Nat) (e : CNode) (acc : Bool) : PRes :=
  match star s i e with
  | (some j, e1, ok1) => finishP nd j e1 (acc && ok1)
  | (none, e1, ok1) => failP nd e1 (acc && ok1)

/-- Alternative `RE_prime -> RE` (a failing `RE` removes its own node,
so no explicit rollback appears at this site in the C code). -/
def REp_alt5 (re : PFun) (nd : CNode) (s : List Char) (i : Nat) (e : CNode) (acc : Bool) : PRes :=
  match re s i e with
  | none => none
  | some (some j, e1, ok1) => finishP nd j e1 (acc && ok1)
  | some (none, e1, ok1) => REp_alt6 nd s i e1 (acc && ok1)

/-- Alternative `RE_prime -> RE RE_prime`; when the inner `RE_prime`
fails, `node_free_last_childs (p_RE_prime, 1)` removes the `RE` node. -/
def REp_alt4 (re rep : PFun) (nd : CNode) (s : List Char) (i : Nat) (e : CNode) (acc : Bool) : PRes :=
  match re s i e with
  | none => none
  | some (some i1, e1, ok1) =>
    match rep s i1 e1 with
    | none => none
    | some (some j, e2, ok2) => finishP nd j e2 (acc && ok1 && ok2)
    | some (none, e2, ok2) => REp_alt5 re nd s i (node_free_last_childs e2 1) (acc && ok1 && ok2)
  | some (none, e1, ok1) => REp_alt5 re nd s i e1 (acc && ok1)

/-- Alternative `RE_prime -> * RE_prime`; when the inner `RE_prime`
fails, `node_free_last_childs (p_RE_prime, 1)` removes the `*` leaf. -/
def REp_alt3 (re rep : PFun) (nd : CNode) (s : List Char) (i : Nat) (e : CNode) (acc : Bool) : PRes :=
  match star s i e with
  | (some i1, e1, ok1) =>
    match rep s i1 e1 with
    | none => none
    | some (some j, e2, ok2) => finishP nd j e2 (acc && ok1 && ok2)
    | some (none, e2, ok2) => REp_alt4 re rep nd s i (node_free_last_childs e2 1) (acc && ok1 && ok2)
  | (none, e1, ok1) => REp_alt4 re rep nd s i e1 (acc && ok1)

/-- Alternative `RE_prime -> + RE`; when `RE` fails,
`node_free_last_childs (p_RE_prime, 1)` removes the `+` leaf. -/
def REp_alt2 (re rep : PFun) (nd : CNode) (s : List Char) (i : Nat) (e : CNode) (acc : Bool) : PRes :=
  match plus s i e with
  | (some i1, e1, ok1) =>
    match re s i1 e1 with
    | none => none
    | some (some j, e2, ok2) => finishP nd j e2 (acc && ok1 && ok2)
    | some (none, e2, ok2) => REp_alt3 re rep nd s i (node_free_last_childs e2 1) (acc && ok1 && ok2)
  | (none, e1, ok1) => REp_alt3 re rep nd s i e1 (acc && ok1)

/-- Entry of `RE_prime`: create the own node (label `RE'`), then try the
alternatives in the declared order, starting with
`RE_prime -> + RE RE_prime` (rollback counts 2 and 1 as in the C code). -/
def REp_alt1 (re rep : PFun) (nd : CNode) (s : List Char) (i : Nat) : PRes :=
  let e := node_init repLab
  match plus s i e with
  | (some i1, e1, ok1) =>
    match re s i1 e1 with
    | none => none
    | some (some i2, e2, ok2) =>
      match rep s i2 e2 with
      | none => none
      | some (some j, e3, ok3) => finishP nd j e3 (ok1 && ok2 && ok3)
      | some (none, e3, ok3) => REp_alt2 re rep nd s i (node_free_last_childs e3 2) (ok1 && ok2 && ok3)
    | some (none, e2, ok2) => REp_alt2 re rep nd s i (node_free_last_childs e2 1) (ok1 && ok2)
  | (none, e1, ok1) => REp_alt2 re rep nd s i e1 ok1

/-- Alternative `RE -> symbol` (the last alternative; on failure the
whole `RE` call fails). -/
def RE_alt6 (nd : CNode) (s : List Char) (i : Nat) (e : CNode) (acc : Bool) : PRes :=
  match symbol s i e with
  | (some j, e1, ok1) => finishP nd j e1 (acc && ok1)
  | (none, e1, ok1) => failP nd e1 (acc && ok1)

/-- Alternative `RE -> #`. -/
def RE_alt5 (nd : CNode) (s : List Char) (i : Nat) (e : CNode) (acc : Bool) : PRes :=
  match epsilon s i e with
  | (some j, e1, ok1) => finishP nd j e1 (acc && ok1)
  | (none, e1, ok1) => RE_alt6 nd s i e1 (acc && ok1)

/-- Alternative `RE -> ( RE )` with rollback counts 2 (after `rpar`
fails) and 1 (after the inner `RE` fails). -/
def RE_alt4 (re : PFun) (nd : CNode) (s : List Char) (i : Nat) (e : CNode) (acc : Bool) : PRes :=
  match lpar s i e with
  | (some i1, e1, ok1) =>
    match re s i1 e1 with
    | none => none
    | some (some i2, e2, ok2) =>
      match rpar s i2 e2 with
      | (some j, e3, ok3) => finishP nd j e3 (acc && ok1 && ok2 && ok3)
      | (none, e3, ok3) => RE_alt5 nd s i (node_free_last_childs e3 2) (acc && ok1 && ok2 && ok3)
    | some (none, e2, ok2) => RE_alt5 nd s i (node_free_last_childs e2 1) (acc && ok1 && ok2)
  | (none, e1, ok1) => RE_alt5 nd s i e1 (acc && ok1)

/-- Alternative `RE -> ( RE ) RE_prime` with rollback counts 3, 2, 1. -/
def RE_alt3 (re rep : PFun) (nd : CNode) (s : List Char) (i : Nat) (e : CNode) (acc : Bool) : PRes :=
  match lpar s i e with
  | (some i1, e1, ok1) =>
    match re s i1 e1 with
    | none => none
    | some (some i2, e2, ok2) =>
      match rpar s i2 e2 with
      | (some i3, e3, ok3) =>
        match rep s i3 e3 with
        | none => none
        | some (some j, e4, ok4) => finishP nd j e4 (acc && ok1 && ok2 && ok3 && ok4)
        | some (none, e4, ok4) =>
          RE_alt4 re nd s i (node_free_last_childs e4 3) (acc && ok1 && ok2 && ok3 && ok4)
      | (none, e3, ok3) => RE_alt4 re nd s i (node_free_last_childs e3 2) (acc && ok1 && ok2 && ok3)
    | some (none, e2, ok2) => RE_alt4 re nd s i (node_free_last_childs e2 1) (acc && ok1 && ok2)
  | (none, e1, ok1) => RE_alt4 re nd s i e1 (acc && ok1)

/-- Alternative `RE -> symbol RE_prime`; when `RE_prime` fails,
`node_free_last_childs (p_RE, 1)` removes the symbol leaf. -/
def RE_alt2 (re rep : PFun) (nd : CNode) (s : List Char) (i : Nat) (e : CNode) (acc : Bool) : PRes :=
  match symbol s i e with
  | (some i1, e1, ok1) =>
    match rep s i1 e1 with
    | none => none
    | some (some j, e2, ok2) => finishP nd j e2 (acc && ok1 && ok2)
    | some (none, e2, ok2) => RE_alt3 re rep nd s i (node_free_last_childs e2 1) (acc && ok1 && ok2)
  | (none, e1, ok1) => RE_alt3 re rep nd s i e1 (acc && ok1)

/-- Entry of `RE`: create the own node (label `RE`), then try the
alternatives in the declared order, starting with
`RE -> # RE_prime`. -/
def RE_alt1 (re rep : PFun) (nd : CNode) (s : List Char) (i : Nat) : PRes :=
  let e := node_init "RE"
  match epsilon s i e with
  | (some i1, e1, ok1) =>
    match rep s i1 e1 with
    | none => none
    | some (some j, e2, ok2) => finishP nd j e2 (ok1 && ok2)
    | some (none, e2, ok2) => RE_alt2 re rep nd s i (node_free_last_childs e2 1) (ok1 && ok2)
  | (none, e1, ok1) => RE_alt2 re rep nd s i e1 ok1

/-- The two mutually recursive nonterminal procedures, indexed by fuel;
each recursive call inside `RE` / `RE_prime` runs at one unit less. -/
def REboth : Nat → PFun × PFun
  | 0 => (fun _ _ _ => none, fun _ _ _ => none)
  | f + 1 =>
    let p := REboth f
    (fun s i nd => RE_alt1 p.1 p.2 nd s i,
     fun s i nd => REp_alt1 p.1 p.2 nd s i)

/-- The `RE` procedure at the given fuel. -/
def RE (f : Nat) : PFun := (REboth f).1

/-- The `RE_prime` procedure at the given fuel. -/
def RE_prime (f : Nat) : PFun := (REboth f).2

/-- Fuel supplied by the driver; proved sufficient for any input. -/
def parseFuel (s : List Char) : Nat := 2 * s.length + 2

/-- Models `parse`: initialize the root node with label `Root`, run `RE`
at cursor 0, and succeed iff `RE` succeeded and the final cursor reads
the terminating NUL.  Besides the C boolean, the final tree and the
no-drop flag are returned. -/
def parseFull (s : List Char) : Bool × CNode × Bool :=
  match RE (parseFuel s) s 0 (node_init "Root") with
  | some (some j, nd, ok) => (decide (charAt s j = Char.ofNat 0), nd, ok)
  | some (none, nd, ok) => (false, nd, ok)
  | none => (false, node_init "Root", true)

/-- The boolean result of `parse`. -/
def parse (s : List Char) : Bool := (parseFull s).1

/-- Concatenation, in left-to-right order, of the labels of the terminal
leaves (childless nodes) of an optional subtree, every leaf contributing
its own label. -/
def fringeO : Option CNode → List Char
  | none => []
  | some (.mk lab a b c d) =>
    if a.isNone && b.isNone && c.isNone && d.isNone then lab.data
    else fringeO a ++ fringeO b ++ fringeO c ++ fringeO d

/-- Leaf-label concatenation of a tree. -/
def fringe (t : CNode) : List Char := fringeO (some t)

/-- Leaf-label concatenation as described by the specification, with `#`
leaves contributing the empty string. -/
def fringeSpecO : Option CNode → List Char
  | none => []
  | some (.mk lab a b c d) =>
    if a.isNone && b.isNone && c.isNone && d.isNone then
      (if lab = "#" then [] else lab.data)
    else fringeSpecO a ++ fringeSpecO b ++ fringeSpecO c ++ fringeSpecO d

/-- Leaf-label concatenation of a tree, `#` leaves contributing `""`. -/
def fringeSpec (t : CNode) : List Char := fringeSpecO (some t)

/-- The sub-list of the input between two cursor positions. -/
def listSlice (s : List Char) (i j : Nat) : List Char := (s.drop i).take (j - i)

/-! Basic facts about `charAt` and `listSlice`. -/

lemma charAt_of_le (s : List Char) (i : Nat) (h : s.length ≤ i) :
    charAt s i = Char.ofNat 0 :=
  List.getD_eq_default s (Char.ofNat 0) h

lemma lt_of_charAt_ne (s : List Char) (i : Nat) (h : charAt s i ≠ Char.ofNat 0) :
    i < s.length := by
  by_contra hle
  exact h (charAt_of_le s i (Nat.le_of_not_lt hle))

lemma lt_of_symbolChar (s : List Char) (i : Nat)
    (h : isSymbolChar (charAt s i) = true) : i < s.length := by
  refine lt_of_charAt_ne s i (fun hnul => ?_)
  rw [hnul] at h
  exact absurd h (by decide)

lemma charAt_mem (s : List Char) (i : Nat) (h : i < s.length) : charAt s i ∈ s := by
  rw [charAt, List.getD_eq_getElem s _ h]
  exact List.getElem_mem h

lemma listSlice_one (s : List Char) (i : Nat) (h : i < s.length) :
    listSlice s i (i + 1) = [charAt s i] := by
  have h2 : i + 1 - i = 1 := by omega
  rw [listSlice, h2, List.drop_eq_getElem_cons h, List.take_succ_cons, List.take_zero,
    charAt, List.getD_eq_getElem s _ h]

lemma listSlice_append (s : List Char) (i k j : Nat) (h1 : i ≤ k) (h2 : k ≤ j) :
    listSlice s i k ++ listSlice s k j = listSlice s i j := by
  unfold listSlice
  have hd : s.drop k = (s.drop i).drop (k - i) := by
    rw [List.drop_drop]
    congr 1
    omega
  rw [hd, ← List.take_add]
  congr 1
  omega

lemma listSlice_all (s : List Char) : listSlice s 0 s.length = s := by
  simp [listSlice]

/-! Computation rules for the tree-store operations on nodes whose
occupied slots are explicitly known. -/

lemma addF_e (lab : String) (t : CNode) :
    node_add_childF (.mk lab none none none none) t =
      (.mk lab (some t) none none none, true) := rfl

lemma addF_1 (lab : String) (x t : CNode) :
    node_add_childF (.mk lab (some x) none none none) t =
      (.mk lab (some x) (some t) none none, true) := rfl

lemma addF_2 (lab : String) (x y t : CNode) :
    node_add_childF (.mk lab (some x) (some y) none none) t =
      (.mk lab (some x) (some y) (some t) none, true) := rfl

lemma addF_3 (lab : String) (x y z t : CNode) :
    node_add_childF (.mk lab (some x) (some y) (some z) none) t =
      (.mk lab (some x) (some y) (some z) (some t), true) := rfl

lemma free1_1 (lab : String) (x : CNode) :
    node_free_last_childs (.mk lab (some x) none none none) 1 =
      .mk lab none none none none := rfl

lemma free1_2 (lab : String) (x y : CNode) :
    node_free_last_childs (.mk lab (some x) (some y) none none) 1 =
      .mk lab (some x) none none none := rfl

lemma free1_3 (lab : String) (x y z : CNode) :
    node_free_last_childs (.mk lab (some x) (some y) (some z) none) 1 =
      .mk lab (some x) (some y) none none := rfl

lemma free2_2 (lab : String) (x y : CNode) :
    node_free_last_childs (.mk lab (some x) (some y) none none) 2 =
      .mk lab none none none none := rfl

lemma free2_3 (lab : String) (x y z : CNode) :
    node_free_last_childs (.mk lab (some x) (some y) (some z) none) 2 =
      .mk lab (some x) none none none := rfl

lemma free3_3 (lab : String) (x y z : CNode) :
    node_free_last_childs (.mk lab (some x) (some y) (some z) none) 3 =
      .mk lab none none none none := rfl

/-- On a node whose occupied slots form a contiguous prefix of length at
most 3, `node_add_child` appends the child in the next slot, the found
flag is true, removing one child afterwards restores the node exactly,
and the child list grows by exactly the new child. -/
lemma addF_room (nd t : CNode) (h1 : contigB nd = true) (h2 : ccount nd ≤ 3) :
    node_add_childF nd t = (node_add_child nd t, true) ∧
    node_free_last_childs (node_add_child nd t) 1 = nd ∧
    kidsList (node_add_child nd t) = kidsList nd ++ [t] ∧
    contigB (node_add_child nd t) = true ∧
    ccount (node_add_child nd t) = ccount nd + 1 := by
  rcases nd with ⟨lab, _ | a, _ | b, _ | c, _ | d⟩ <;>
    simp_all [contigB, ccount, node_add_childF, node_add_child,
      node_free_last_childs, kidsList]

/-! Computation rules for `fringe`. -/

lemma fringe_leaf (lab : String) :
    fringe (.mk lab none none none none) = lab.data := by
  simp [fringe, fringeO]

lemma fringe_1 (lab : String) (x : CNode) :
    fringe (.mk lab (some x) none none none) = fringe x := by
  rw [fringe, fringeO]
  simp [fringe, fringeO]

lemma fringe_2 (lab : String) (x y : CNode) :
    fringe (.mk lab (some x) (some y) none none) = fringe x ++ fringe y := by
  rw [fringe, fringeO]
  simp [fringe, fringeO]

lemma fringe_3 (lab : String) (x y z : CNode) :
    fringe (.mk lab (some x) (some y) (some z) none) =
      fringe x ++ fringe y ++ fringe z := by
  rw [fringe, fringeO]
  simp [fringe, fringeO]

lemma fringe_4 (lab : String) (x y z w : CNode) :
    fringe (.mk lab (some x) (some y) (some z) (some w)) =
      fringe x ++ fringe y ++ fringe z ++ fringe w := by
  rw [fringe, fringeO]
  simp [fringe, fringeO]

/-! Evaluation rules for the terminal recognizers. -/

lemma epsilon_pos (s : List Char) (i : Nat) (p : CNode) (h : charAt s i = '#') :
    epsilon s i p = (some (i + 1), node_add_childF p (node_init "#")) := by
  simp [epsilon, h]

lemma epsilon_neg (s : List Char) (i : Nat) (p : CNode) (h : ¬ charAt s i = '#') :
    epsilon s i p = (none, p, true) := by
  simp [epsilon, h]

lemma symbol_pos (s : List Char) (i : Nat) (p : CNode)
    (h : isSymbolChar (charAt s i) = true) :
    symbol s i p = (some (i + 1), node_add_childF p (node_init (String.mk [charAt s i]))) := by
  simp [symbol, h]

lemma symbol_neg (s : List Char) (i : Nat) (p : CNode)
    (h : ¬ isSymbolChar (charAt s i) = true) :
    symbol s i p = (none, p, true) := by
  simp [symbol, h]

lemma lpar_pos (s : List Char) (i : Nat) (p : CNode) (h : charAt s i = '(') :
    lpar s i p = (some (i + 1), node_add_childF p (node_init "(")) := by
  simp [lpar, h]

lemma lpar_neg (s : List Char) (i : Nat) (p : CNode) (h : ¬ charAt s i = '(') :
    lpar s i p = (none, p, true) := by
  simp [lpar, h]

lemma rpar_pos (s : List Char) (i : Nat) (p : CNode) (h : charAt s i = ')') :
    rpar s i p = (some (i + 1), node_add_childF p (node_init ")")) := by
  simp [rpar, h]

lemma rpar_neg (s : List Char) (i : Nat) (p : CNode) (h : ¬ charAt s i = ')') :
    rpar s i p = (none, p, true) := by
  simp [rpar, h]

lemma star_pos (s : List Char) (i : Nat) (p : CNode) (h : charAt s i = '*') :
    star s i p = (some (i + 1), node_add_childF p (node_init "*")) := by
  simp [star, h]

lemma star_neg (s : List Char) (i : Nat) (p : CNode) (h : ¬ charAt s i = '*') :
    star s i p = (none, p, true) := by
  simp [star, h]

lemma plus_pos (s : List Char) (i : Nat) (p : CNode) (h : charAt s i = '+') :
    plus s i p = (some (i + 1), node_add_childF p (node_init "+")) := by
  simp [plus, h]

lemma plus_neg (s : List Char) (i : Nat) (p : CNode) (h : ¬ charAt s i = '+') :
    plus s i p = (none, p, true) := by
  simp [plus, h]

/-- The behaviour contract of a nonterminal run: on grammar failure the
caller's node is returned exactly as it was; on success the cursor
strictly advances but stays within the input, the no-drop flag holds,
and exactly one node (labelled `lab`, its leaf labels spelling the
consumed slice) has been appended to the caller's node. -/
def RSpec (lab : String) (s : List Char) (i : Nat) (nd : CNode) : PRes → Prop
  | none => True
  | some (none, nd2, ok) => nd2 = nd ∧ ok = true
  | some (some j, nd2, ok) =>
    i < j ∧ j ≤ s.length ∧ ok = true ∧
    ∃ t : CNode, nd2 = node_add_child nd t ∧ t.content = lab ∧
      fringe t = listSlice s i j

/-- Combined induction invariant for a nonterminal procedure `p` at a
given fuel `F`: the behaviour contract holds whenever the caller's node
has room, and the fuel bound `2 * (length - i) + c` guarantees the fuel
does not run out. -/
def PGood (p : PFun) (lab : String) (c F : Nat) : Prop :=
  ∀ s i nd,
    (contigB nd = true → ccount nd ≤ 3 → RSpec lab s i nd (p s i nd)) ∧
    (2 * (s.length - i) + c ≤ F → (p s i nd).isSome = true)

/-! Projections of the `node_add_child` computation rules. -/

lemma add_e (lab : String) (t : CNode) :
    node_add_child (.mk lab none none none none) t =
      .mk lab (some t) none none none := rfl

lemma add_1 (lab : String) (x t : CNode) :
    node_add_child (.mk lab (some x) none none none) t =
      .mk lab (some x) (some t) none none := rfl

lemma add_2 (lab : String) (x y t : CNode) :
    node_add_child (.mk lab (some x) (some y) none none) t =
      .mk lab (some x) (some y) (some t) none := rfl

lemma add_3 (lab : String) (x y z t : CNode) :
    node_add_child (.mk lab (some x) (some y) (some z) none) t =
      .mk lab (some x) (some y) (some z) (some t) := rfl

lemma finishP_eq (nd e : CNode) (j : Nat) (hc : contigB nd = true) (hn : ccount nd ≤ 3) :
    finishP nd j e true = some (some j, node_add_child nd e, true) := by
  obtain ⟨hF, -, -, -, -⟩ := addF_room nd e hc hn
  simp only [finishP, hF, Bool.true_and]

lemma failP_eq (nd e : CNode) (hc : contigB nd = true) (hn : ccount nd ≤ 3) :
    failP nd e true = some (none, nd, true) := by
  obtain ⟨hF, hr, -, -, -⟩ := addF_room nd e hc hn
  simp only [failP, hF, Bool.true_and, hr]

lemma finishP_isSome (nd e : CNode) (j : Nat) (acc : Bool) :
    (finishP nd j e acc).isSome = true := rfl

lemma failP_isSome (nd e : CNode) (acc : Bool) :
    (failP nd e acc).isSome = true := rfl

/-! Per-alternative correctness lemmas for `RE_prime`, from the last
alternative back to the first (each failing alternative falls through to
the next with the own node rolled back to the childless state). -/

lemma REp_alt6_good (s : List Char) (i : Nat) (nd : CNode) :
    (contigB nd = true → ccount nd ≤ 3 →
      RSpec repLab s i nd (REp_alt6 nd s i (node_init repLab) true)) ∧
    (REp_alt6 nd s i (node_init repLab) true).isSome = true := by
  by_cases h : charAt s i = '*'
  · have hi : i < s.length := lt_of_charAt_ne s i (by rw [h]; decide)
    have e1 : REp_alt6 nd s i (node_init repLab) true =
        finishP nd (i + 1)
          (.mk repLab (some (.mk "*" none none none none)) none none none) true := by
      simp only [REp_alt6, star_pos s i _ h, node_init, addF_e, Bool.and_self]
    rw [e1]
    refine ⟨fun hc hn => ?_, finishP_isSome _ _ _ _⟩
    rw [finishP_eq _ _ _ hc hn]
    refine ⟨Nat.lt_succ_self i, hi, rfl, _, rfl, rfl, ?_⟩
    rw [fringe_1, fringe_leaf, listSlice_one s i hi, h]
  · have e1 : REp_alt6 nd s i (node_init repLab) true =
        failP nd (node_init repLab) true := by
      simp only [REp_alt6, star_neg s i _ h, Bool.and_self]
    rw [e1]
    refine ⟨fun hc hn => ?_, failP_isSome _ _ _⟩
    rw [node_init, failP_eq _ _ hc hn]
    exact ⟨rfl, rfl⟩

lemma REp_alt5_good (re : PFun) (F : Nat) (hre : PGood re "RE" 1 F)
    (s : List Char) (i : Nat) (nd : CNode) :
    (contigB nd = true → ccount nd ≤ 3 →
      RSpec repLab s i nd (REp_alt5 re nd s i (node_init repLab) true)) ∧
    (2 * (s.length - i) + 1 ≤ F →
      (REp_alt5 re nd s i (node_init repLab) true).isSome = true) := by
  have hspec := (hre s i (node_init repLab)).1 rfl (by decide)
  rcases hres : re s i (node_init repLab) with _ | ⟨_ | j, e1, ok1⟩
  · refine ⟨fun hc hn => ?_, fun hb => ?_⟩
    · simp only [REp_alt5, hres]
      exact trivial
    · have := (hre s i (node_init repLab)).2 hb
      rw [hres] at this
      exact absurd this (by decide)
  · rw [hres] at hspec
    obtain ⟨he1, hok⟩ := hspec
    subst he1; subst hok
    refine ⟨fun hc hn => ?_, fun hb => ?_⟩ <;>
      simp only [REp_alt5, hres, Bool.true_and]
    · exact (REp_alt6_good s i nd).1 hc hn
    · exact (REp_alt6_good s i nd).2
  · rw [hres] at hspec
    obtain ⟨hij, hj, hok, t, he1, hlab, hfr⟩ := hspec
    subst he1; subst hok
    refine ⟨fun hc hn => ?_, fun hb => ?_⟩ <;>
      simp only [REp_alt5, hres, Bool.true_and]
    · rw [node_init, add_e, finishP_eq _ _ _ hc hn]
      refine ⟨hij, hj, rfl, _, rfl, rfl, ?_⟩
      rw [fringe_1]
      exact hfr
    · exact finishP_isSome _ _ _ _

lemma REp_alt4_good (re rep : PFun) (F : Nat)
    (hre : PGood re "RE" 1 F) (hrep : PGood rep repLab 2 F)
    (s : List Char) (i : Nat) (nd : CNode) :
    (contigB nd = true → ccount nd ≤ 3 →
      RSpec repLab s i nd (REp_alt4 re rep nd s i (node_init repLab) true)) ∧
    (2 * (s.length - i) + 1 ≤ F →
      (REp_alt4 re rep nd s i (node_init repLab) true).isSome = true) := by
  have hspec := (hre s i (node_init repLab)).1 rfl (by decide)
  rcases hres : re s i (node_init repLab) with _ | ⟨_ | i1, e1, ok1⟩
  · refine ⟨fun hc hn => ?_, fun hb => ?_⟩
    · simp only [REp_alt4, hres]
      exact trivial
    · have := (hre s i (node_init repLab)).2 hb
      rw [hres] at this
      exact absurd this (by decide)
  · rw [hres] at hspec
    obtain ⟨he1, hok⟩ := hspec
    subst he1; subst hok
    refine ⟨fun hc hn => ?_, fun hb => ?_⟩
    · simp only [REp_alt4, hres, Bool.true_and]
      exact (REp_alt5_good re F hre s i nd).1 hc hn
    · simp only [REp_alt4, hres, Bool.true_and]
      exact (REp_alt5_good re F hre s i nd).2 hb
  · rw [hres] at hspec
    obtain ⟨hii1, hi1, hok, t, he1, hlab, hfr⟩ := hspec
    subst he1; subst hok
    simp only [node_init, add_e] at hres
    have hspec2 := (hrep s i1 (.mk repLab (some t) none none none)).1 rfl (by simp [ccount])
    rcases hres2 : rep s i1 (.mk repLab (some t) none none none) with _ | ⟨_ | j, e2, ok2⟩
    · refine ⟨fun hc hn => ?_, fun hb => ?_⟩
      · simp only [REp_alt4, node_init, hres, hres2, Bool.true_and]
        exact trivial
      · have hb2 : 2 * (s.length - i1) + 2 ≤ F := by omega
        have := (hrep s i1 (.mk repLab (some t) none none none)).2 hb2
        rw [hres2] at this
        exact absurd this (by decide)
    · rw [hres2] at hspec2
      obtain ⟨he2, hok2⟩ := hspec2
      subst he2; subst hok2
      refine ⟨fun hc hn => ?_, fun hb => ?_⟩
      · simp only [REp_alt4, node_init, hres, hres2, free1_1, Bool.true_and]
        exact (REp_alt5_good re F hre s i nd).1 hc hn
      · simp only [REp_alt4, node_init, hres, hres2, free1_1, Bool.true_and]
        exact (REp_alt5_good re F hre s i nd).2 hb
    · rw [hres2] at hspec2
      obtain ⟨hi1j, hj, hok2, t2, he2, hlab2, hfr2⟩ := hspec2
      subst he2; subst hok2
      simp only [add_1] at hres2
      refine ⟨fun hc hn => ?_, fun hb => ?_⟩
      · simp only [REp_alt4, node_init, hres, hres2, Bool.true_and]
        rw [finishP_eq _ _ _ hc hn]
        refine ⟨Nat.lt_trans hii1 hi1j, hj, rfl, _, rfl, rfl, ?_⟩
        rw [fringe_2, hfr, hfr2,
          listSlice_append s i i1 j (Nat.le_of_lt hii1) (Nat.le_of_lt hi1j)]
      · simp only [REp_alt4, node_init, hres, hres2, Bool.true_and]
        exact finishP_isSome _ _ _ _

lemma REp_alt3_good (re rep : PFun) (F : Nat)
    (hre : PGood re "RE" 1 F) (hrep : PGood rep repLab 2 F)
    (s : List Char) (i : Nat) (nd : CNode) :
    (contigB nd = true → ccount nd ≤ 3 →
      RSpec repLab s i nd (REp_alt3 re rep nd s i (node_init repLab) true)) ∧
    (2 * (s.length - i) + 1 ≤ F →
      (REp_alt3 re rep nd s i (node_init repLab) true).isSome = true) := by
  by_cases h : charAt s i = '*'
  · have hi : i < s.length := lt_of_charAt_ne s i (by rw [h]; decide)
    have hone : ("*" : String).data = listSlice s i (i + 1) := by
      rw [listSlice_one s i hi, h]
    have hspec2 := (hrep s (i + 1)
      (.mk repLab (some (.mk "*" none none none none)) none none none)).1 rfl (by decide)
    rcases hres2 : rep s (i + 1)
        (.mk repLab (some (.mk "*" none none none none)) none none none)
      with _ | ⟨_ | j, e2, ok2⟩
    · refine ⟨fun hc hn => ?_, fun hb => ?_⟩
      · simp only [REp_alt3, star_pos s i _ h, node_init, addF_e, hres2, Bool.true_and]
        exact trivial
      · have hb2 : 2 * (s.length - (i + 1)) + 2 ≤ F := by omega
        have := (hrep s (i + 1)
          (.mk repLab (some (.mk "*" none none none none)) none none none)).2 hb2
        rw [hres2] at this
        exact absurd this (by decide)
    · rw [hres2] at hspec2
      obtain ⟨he2, hok2⟩ := hspec2
      subst he2; subst hok2
      refine ⟨fun hc hn => ?_, fun hb => ?_⟩
      · simp only [REp_alt3, star_pos s i _ h, node_init, addF_e, hres2, free1_1,
          Bool.true_and]
        exact (REp_alt4_good re rep F hre hrep s i nd).1 hc hn
      · simp only [REp_alt3, star_pos s i _ h, node_init, addF_e, hres2, free1_1,
          Bool.true_and]
        exact (REp_alt4_good re rep F hre hrep s i nd).2 hb
    · rw [hres2] at hspec2
      obtain ⟨hi1j, hj, hok2, t2, he2, hlab2, hfr2⟩ := hspec2
      subst he2; subst hok2
      refine ⟨fun hc hn => ?_, fun hb => ?_⟩
      · simp only [REp_alt3, star_pos s i _ h, node_init, addF_e, hres2, add_e, add_1,
          Bool.true_and]
        rw [finishP_eq _ _ _ hc hn]
        refine ⟨Nat.lt_trans (Nat.lt_succ_self i) hi1j, hj, rfl, _, rfl, rfl, ?_⟩
        rw [fringe_2, fringe_leaf, hone, hfr2,
          listSlice_append s i (i + 1) j (Nat.le_succ i) (Nat.le_of_lt hi1j)]
      · simp only [REp_alt3, star_pos s i _ h, node_init, addF_e, hres2, add_e, add_1,
          Bool.true_and]
        exact finishP_isSome _ _ _ _
  · refine ⟨fun hc hn => ?_, fun hb => ?_⟩
    · simp only [REp_alt3, star_neg s i _ h, Bool.true_and]
      exact (REp_alt4_good re rep F hre hrep s i nd).1 hc hn
    · simp only [REp_alt3, star_neg s i _ h, Bool.true_and]
      exact (REp_alt4_good re rep F hre hrep s i nd).2 hb

lemma REp_alt2_good (re rep : PFun) (F : Nat)
    (hre : PGood re "RE" 1 F) (hrep : PGood rep repLab 2 F)
    (s : List Char) (i : Nat) (nd : CNode) :
    (contigB nd = true → ccount nd ≤ 3 →
      RSpec repLab s i nd (REp_alt2 re rep nd s i (node_init repLab) true)) ∧
    (2 * (s.length - i) + 1 ≤ F →
      (REp_alt2 re rep nd s i (node_init repLab) true).isSome = true) := by
  by_cases h : charAt s i = '+'
  · have hi : i < s.length := lt_of_charAt_ne s i (by rw [h]; decide)
    have hone : ("+" : String).data = listSlice s i (i + 1) := by
      rw [listSlice_one s i hi, h]
    have hspec2 := (hre s (i + 1)
      (.mk repLab (some (.mk "+" none none none none)) none none none)).1 rfl (by decide)
    rcases hres2 : re s (i + 1)
        (.mk repLab (some (.mk "+" none none none none)) none none none)
      with _ | ⟨_ | j, e2, ok2⟩
    · refine ⟨fun hc hn => ?_, fun hb => ?_⟩
      · simp only [REp_alt2, plus_pos s i _ h, node_init, addF_e, hres2, Bool.true_and]
        exact trivial
      · have hb2 : 2 * (s.length - (i + 1)) + 1 ≤ F := by omega
        have := (hre s (i + 1)
          (.mk repLab (some (.mk "+" none none none none)) none none none)).2 hb2
        rw [hres2] at this
        exact absurd this (by decide)
    · rw [hres2] at hspec2
      obtain ⟨he2, hok2⟩ := hspec2
      subst he2; subst hok2
      refine ⟨fun hc hn => ?_, fun hb => ?_⟩
      · simp only [REp_alt2, plus_pos s i _ h, node_init, addF_e, hres2, free1_1,
          Bool.true_and]
        exact (REp_alt3_good re rep F hre hrep s i nd).1 hc hn
      · simp only [REp_alt2, plus_pos s i _ h, node_init, addF_e, hres2, free1_1,
          Bool.true_and]
        exact (REp_alt3_good re rep F hre hrep s i nd).2 hb
    · rw [hres2] at hspec2
      obtain ⟨hi1j, hj, hok2, t2, he2, hlab2, hfr2⟩ := hspec2
      subst he2; subst hok2
      refine ⟨fun hc hn => ?_, fun hb => ?_⟩
      · simp only [REp_alt2, plus_pos s i _ h, node_init, addF_e, hres2, add_e, add_1,
          Bool.true_and]
        rw [finishP_eq _ _ _ hc hn]
        refine ⟨Nat.lt_trans (Nat.lt_succ_self i) hi1j, hj, rfl, _, rfl, rfl, ?_⟩
        rw [fringe_2, fringe_leaf, hone, hfr2,
          listSlice_append s i (i + 1) j (Nat.le_succ i) (Nat.le_of_lt hi1j)]
      · simp only [REp_alt2, plus_pos s i _ h, node_init, addF_e, hres2, add_e, add_1,
          Bool.true_and]
        exact finishP_isSome _ _ _ _
  · refine ⟨fun hc hn => ?_, fun hb => ?_⟩
    · simp only [REp_alt2, plus_neg s i _ h, Bool.true_and]
      exact (REp_alt3_good re rep F hre hrep s i nd).1 hc hn
    · simp only [REp_alt2, plus_neg s i _ h, Bool.true_and]
      exact (REp_alt3_good re rep F hre hrep s i nd).2 hb

lemma REp_alt1_good (re rep : PFun) (F : Nat)
    (hre : PGood re "RE" 1 F) (hrep : PGood rep repLab 2 F)
    (s : List Char) (i : Nat) (nd : CNode) :
    (contigB nd = true → ccount nd ≤ 3 →
      RSpec repLab s i nd (REp_alt1 re rep nd s i)) ∧
    (2 * (s.length - i) + 1 ≤ F → (REp_alt1 re rep nd s i).isSome = true) := by
  by_cases h : charAt s i = '+'
  · have hi : i < s.length := lt_of_charAt_ne s i (by rw [h]; decide)
    have hone : ("+" : String).data = listSlice s i (i + 1) := by
      rw [listSlice_one s i hi, h]
    have hspec2 := (hre s (i + 1)
      (.mk repLab (some (.mk "+" none none none none)) none none none)).1 rfl (by decide)
    rcases hres2 : re s (i + 1)
        (.mk repLab (some (.mk "+" none none none none)) none none none)
      with _ | ⟨_ | i2, e2, ok2⟩
    · refine ⟨fun hc hn => ?_, fun hb => ?_⟩
      · simp only [REp_alt1, plus_pos s i _ h, node_init, addF_e, hres2, Bool.true_and]
        exact trivial
      · have hb2 : 2 * (s.length - (i + 1)) + 1 ≤ F := by omega
        have := (hre s (i + 1)
          (.mk repLab (some (.mk "+" none none none none)) none none none)).2 hb2
        rw [hres2] at this
        exact absurd this (by decide)
    · rw [hres2] at hspec2
      obtain ⟨he2, hok2⟩ := hspec2
      subst he2; subst hok2
      refine ⟨fun hc hn => ?_, fun hb => ?_⟩
      · simp only [REp_alt1, plus_pos s i _ h, node_init, addF_e, hres2, free1_1,
          Bool.true_and]
        exact (REp_alt2_good re rep F hre hrep s i nd).1 hc hn
      · simp only [REp_alt1, plus_pos s i _ h, node_init, addF_e, hres2, free1_1,
          Bool.true_and]
        exact (REp_alt2_good re rep F hre hrep s i nd).2 hb
    · rw [hres2] at hspec2
      obtain ⟨hi1i2, hi2, hok2, t2, he2, hlab2, hfr2⟩ := hspec2
      subst he2; subst hok2
      simp only [add_1] at hres2
      have hspec3 := (hrep s i2
        (.mk repLab (some (.mk "+" none none none none)) (some t2) none none)).1
        rfl (by simp [ccount])
      rcases hres3 : rep s i2
          (.mk repLab (some (.mk "+" none none none none)) (some t2) none none)
        with _ | ⟨_ | j, e3, ok3⟩
      · refine ⟨fun hc hn => ?_, fun hb => ?_⟩
        · simp only [REp_alt1, plus_pos s i _ h, node_init, addF_e, hres2, hres3,
            Bool.true_and]
          exact trivial
        · have hb3 : 2 * (s.length - i2) + 2 ≤ F := by omega
          have := (hrep s i2
            (.mk repLab (some (.mk "+" none none none none)) (some t2) none none)).2 hb3
          rw [hres3] at this
          exact absurd this (by decide)
      · rw [hres3] at hspec3
        obtain ⟨he3, hok3⟩ := hspec3
        subst he3; subst hok3
        refine ⟨fun hc hn => ?_, fun hb => ?_⟩
        · simp only [REp_alt1, plus_pos s i _ h, node_init, addF_e, hres2, hres3,
            free2_2, Bool.true_and]
          exact (REp_alt2_good re rep F hre hrep s i nd).1 hc hn
        · simp only [REp_alt1, plus_pos s i _ h, node_init, addF_e, hres2, hres3,
            free2_2, Bool.true_and]
          exact (REp_alt2_good re rep F hre hrep s i nd).2 hb
      · rw [hres3] at hspec3
        obtain ⟨hi2j, hj, hok3, t3, he3, hlab3, hfr3⟩ := hspec3
        subst he3; subst hok3
        simp only [add_2] at hres3
        refine ⟨fun hc hn => ?_, fun hb => ?_⟩
        · simp only [REp_alt1, plus_pos s i _ h, node_init, addF_e, hres2, hres3,
            Bool.true_and]
          rw [finishP_eq _ _ _ hc hn]
          refine ⟨Nat.lt_trans (Nat.lt_trans (Nat.lt_succ_self i) hi1i2) hi2j, hj, rfl,
            _, rfl, rfl, ?_⟩
          rw [fringe_3, fringe_leaf, hone, hfr2,
            listSlice_append s i (i + 1) i2 (Nat.le_succ i) (Nat.le_of_lt hi1i2), hfr3,
            listSlice_append s i i2 j
              (Nat.le_of_lt (Nat.lt_trans (Nat.lt_succ_self i) hi1i2)) (Nat.le_of_lt hi2j)]
        · simp only [REp_alt1, plus_pos s i _ h, node_init, addF_e, hres2, hres3,
            Bool.true_and]
          exact finishP_isSome _ _ _ _
  · refine ⟨fun hc hn => ?_, fun hb => ?_⟩
    · simp only [REp_alt1, plus_neg s i _ h, Bool.true_and]
      exact (REp_alt2_good re rep F hre hrep s i nd).1 hc hn
    · simp only [REp_alt1, plus_neg s i _ h, Bool.true_and]
      exact (REp_alt2_good re rep F hre hrep s i nd).2 hb

/-! Per-alternative correctness lemmas for `RE`. -/

lemma RE_alt6_good (s : List Char) (i : Nat) (nd : CNode) :
    (contigB nd = true → ccount nd ≤ 3 →
      RSpec "RE" s i nd (RE_alt6 nd s i (node_init "RE") true)) ∧
    (RE_alt6 nd s i (node_init "RE") true).isSome = true := by
  by_cases h : isSymbolChar (charAt s i) = true
  · have hi : i < s.length := lt_of_symbolChar s i h
    have e1 : RE_alt6 nd s i (node_init "RE") true =
        finishP nd (i + 1)
          (.mk "RE" (some (.mk (String.mk [charAt s i]) none none none none))
            none none none) true := by
      simp only [RE_alt6, symbol_pos s i _ h, node_init, addF_e, Bool.and_self]
    rw [e1]
    refine ⟨fun hc hn => ?_, finishP_isSome _ _ _ _⟩
    rw [finishP_eq _ _ _ hc hn]
    refine ⟨Nat.lt_succ_self i, hi, rfl, _, rfl, rfl, ?_⟩
    rw [fringe_1, fringe_leaf, listSlice_one s i hi]
  · have e1 : RE_alt6 nd s i (node_init "RE") true =
        failP nd (node_init "RE") true := by
      simp only [RE_alt6, symbol_neg s i _ h, Bool.and_self]
    rw [e1]
    refine ⟨fun hc hn => ?_, failP_isSome _ _ _⟩
    rw [node_init, failP_eq _ _ hc hn]
    exact ⟨rfl, rfl⟩

lemma RE_alt5_good (s : List Char) (i : Nat) (nd : CNode) :
    (contigB nd = true → ccount nd ≤ 3 →
      RSpec "RE" s i nd (RE_alt5 nd s i (node_init "RE") true)) ∧
    (RE_alt5 nd s i (node_init "RE") true).isSome = true := by
  by_cases h : charAt s i = '#'
  · have hi : i < s.length := lt_of_charAt_ne s i (by rw [h]; decide)
    have e1 : RE_alt5 nd s i (node_init "RE") true =
        finishP nd (i + 1)
          (.mk "RE" (some (.mk "#" none none none none)) none none none) true := by
      simp only [RE_alt5, epsilon_pos s i _ h, node_init, addF_e, Bool.and_self]
    rw [e1]
    refine ⟨fun hc hn => ?_, finishP_isSome _ _ _ _⟩
    rw [finishP_eq _ _ _ hc hn]
    refine ⟨Nat.lt_succ_self i, hi, rfl, _, rfl, rfl, ?_⟩
    rw [fringe_1, fringe_leaf, listSlice_one s i hi, h]
  · refine ⟨fun hc hn => ?_, ?_⟩
    · simp only [RE_alt5, epsilon_neg s i _ h, Bool.true_and]
      exact (RE_alt6_good s i nd).1 hc hn
    · simp only [RE_alt5, epsilon_neg s i _ h, Bool.true_and]
      exact (RE_alt6_good s i nd).2

lemma RE_alt4_good (re : PFun) (F : Nat) (hre : PGood re "RE" 1 F)
    (s : List Char) (i : Nat) (nd : CNode) :
    (contigB nd = true → ccount nd ≤ 3 →
      RSpec "RE" s i nd (RE_alt4 re nd s i (node_init "RE") true)) ∧
    (2 * (s.length - i) ≤ F →
      (RE_alt4 re nd s i (node_init "RE") true).isSome = true) := by
  by_cases h : charAt s i = '('
  · have hi : i < s.length := lt_of_charAt_ne s i (by rw [h]; decide)
    have hone : ("(" : String).data = listSlice s i (i + 1) := by
      rw [listSlice_one s i hi, h]
    have hspec2 := (hre s (i + 1)
      (.mk "RE" (some (.mk "(" none none none none)) none none none)).1 rfl
      (by simp [ccount])
    rcases hres2 : re s (i + 1)
        (.mk "RE" (some (.mk "(" none none none none)) none none none)
      with _ | ⟨_ | i2, e2, ok2⟩
    · refine ⟨fun hc hn => ?_, fun hb => ?_⟩
      · simp only [RE_alt4, lpar_pos s i _ h, node_init, addF_e, hres2, Bool.true_and]
        exact trivial
      · have hb2 : 2 * (s.length - (i + 1)) + 1 ≤ F := by omega
        have := (hre s (i + 1)
          (.mk "RE" (some (.mk "(" none none none none)) none none none)).2 hb2
        rw [hres2] at this
        exact absurd this (by decide)
    · rw [hres2] at hspec2
      obtain ⟨he2, hok2⟩ := hspec2
      subst he2; subst hok2
      refine ⟨fun hc hn => ?_, fun hb => ?_⟩
      · simp only [RE_alt4, lpar_pos s i _ h, node_init, addF_e, hres2, free1_1,
          Bool.true_and]
        exact (RE_alt5_good s i nd).1 hc hn
      · simp only [RE_alt4, lpar_pos s i _ h, node_init, addF_e, hres2, free1_1,
          Bool.true_and]
        exact (RE_alt5_good s i nd).2
    · rw [hres2] at hspec2
      obtain ⟨hi1i2, hi2, hok2, t2, he2, hlab2, hfr2⟩ := hspec2
      subst he2; subst hok2
      simp only [add_1] at hres2
      by_cases h3 : charAt s i2 = ')'
      · have hi2l : i2 < s.length := lt_of_charAt_ne s i2 (by rw [h3]; decide)
        have htwo : (")" : String).data = listSlice s i2 (i2 + 1) := by
          rw [listSlice_one s i2 hi2l, h3]
        refine ⟨fun hc hn => ?_, fun hb => ?_⟩
        · simp only [RE_alt4, lpar_pos s i _ h, node_init, addF_e, hres2,
            rpar_pos s i2 _ h3, addF_2, Bool.true_and]
          rw [finishP_eq _ _ _ hc hn]
          refine ⟨by omega, by omega, rfl, _, rfl, rfl, ?_⟩
          rw [fringe_3, fringe_leaf, fringe_leaf, hone, hfr2, htwo,
            listSlice_append s i (i + 1) i2 (Nat.le_succ i) (Nat.le_of_lt hi1i2),
            listSlice_append s i i2 (i2 + 1) (by omega) (Nat.le_succ i2)]
        · simp only [RE_alt4, lpar_pos s i _ h, node_init, addF_e, hres2,
            rpar_pos s i2 _ h3, addF_2, Bool.true_and]
          exact finishP_isSome _ _ _ _
      · refine ⟨fun hc hn => ?_, fun hb => ?_⟩
        · simp only [RE_alt4, lpar_pos s i _ h, node_init, addF_e, hres2,
            rpar_neg s i2 _ h3, free2_2, Bool.true_and]
          exact (RE_alt5_good s i nd).1 hc hn
        · simp only [RE_alt4, lpar_pos s i _ h, node_init, addF_e, hres2,
            rpar_neg s i2 _ h3, free2_2, Bool.true_and]
          exact (RE_alt5_good s i nd).2
  · refine ⟨fun hc hn => ?_, fun hb => ?_⟩
    · simp only [RE_alt4, lpar_neg s i _ h, Bool.true_and]
      exact (RE_alt5_good s i nd).1 hc hn
    · simp only [RE_alt4, lpar_neg s i _ h, Bool.true_and]
      exact (RE_alt5_good s i nd).2

lemma RE_alt3_good (re rep : PFun) (F : Nat)
    (hre : PGood re "RE" 1 F) (hrep : PGood rep repLab 2 F)
    (s : List Char) (i : Nat) (nd : CNode) :
    (contigB nd = true → ccount nd ≤ 3 →
      RSpec "RE" s i nd (RE_alt3 re rep nd s i (node_init "RE") true)) ∧
    (2 * (s.length - i) ≤ F →
      (RE_alt3 re rep nd s i (node_init "RE") true).isSome = true) := by
  by_cases h : charAt s i = '('
  · have hi : i < s.length := lt_of_charAt_ne s i (by rw [h]; decide)
    have hone : ("(" : String).data = listSlice s i (i + 1) := by
      rw [listSlice_one s i hi, h]
    have hspec2 := (hre s (i + 1)
      (.mk "RE" (some (.mk "(" none none none none)) none none none)).1 rfl
      (by simp [ccount])
    rcases hres2 : re s (i + 1)
        (.mk "RE" (some (.mk "(" none none none none)) none none none)
      with _ | ⟨_ | i2, e2, ok2⟩
    · refine ⟨fun hc hn => ?_, fun hb => ?_⟩
      · simp only [RE_alt3, lpar_pos s i _ h, node_init, addF_e, hres2, Bool.true_and]
        exact trivial
      · have hb2 : 2 * (s.length - (i + 1)) + 1 ≤ F := by omega
        have := (hre s (i + 1)
          (.mk "RE" (some (.mk "(" none none none none)) none none none)).2 hb2
        rw [hres2] at this
        exact absurd this (by decide)
    · rw [hres2] at hspec2
      obtain ⟨he2, hok2⟩ := hspec2
      subst he2; subst hok2
      refine ⟨fun hc hn => ?_, fun hb => ?_⟩
      · simp only [RE_alt3, lpar_pos s i _ h, node_init, addF_e, hres2, free1_1,
          Bool.true_and]
        exact (RE_alt4_good re F hre s i nd).1 hc hn
      · simp only [RE_alt3, lpar_pos s i _ h, node_init, addF_e, hres2, free1_1,
          Bool.true_and]
        exact (RE_alt4_good re F hre s i nd).2 hb
    · rw [hres2] at hspec2
      obtain ⟨hi1i2, hi2, hok2, t2, he2, hlab2, hfr2⟩ := hspec2
      subst he2; subst hok2
      simp only [add_1] at hres2
      by_cases h3 : charAt s i2 = ')'
      · have hi2l : i2 < s.length := lt_of_charAt_ne s i2 (by rw [h3]; decide)
        have htwo : (")" : String).data = listSlice s i2 (i2 + 1) := by
          rw [listSlice_one s i2 hi2l, h3]
        have hspec4 := (hrep s (i2 + 1)
          (.mk "RE" (some (.mk "(" none none none none)) (some t2)
            (some (.mk ")" none none none none)) none)).1 rfl (by simp [ccount])
        rcases hres4 : rep s (i2 + 1)
            (.mk "RE" (some (.mk "(" none none none none)) (some t2)
              (some (.mk ")" none none none none)) none)
          with _ | ⟨_ | j, e4, ok4⟩
        · refine ⟨fun hc hn => ?_, fun hb => ?_⟩
          · simp only [RE_alt3, lpar_pos s i _ h, node_init, addF_e, hres2,
              rpar_pos s i2 _ h3, addF_2, hres4, Bool.true_and]
            exact trivial
          · have hb4 : 2 * (s.length - (i2 + 1)) + 2 ≤ F := by omega
            have := (hrep s (i2 + 1)
              (.mk "RE" (some (.mk "(" none none none none)) (some t2)
                (some (.mk ")" none none none none)) none)).2 hb4
            rw [hres4] at this
            exact absurd this (by decide)
        · rw [hres4] at hspec4
          obtain ⟨he4, hok4⟩ := hspec4
          subst he4; subst hok4
          refine ⟨fun hc hn => ?_, fun hb => ?_⟩
          · simp only [RE_alt3, lpar_pos s i _ h, node_init, addF_e, hres2,
              rpar_pos s i2 _ h3, addF_2, hres4, free3_3, Bool.true_and]
            exact (RE_alt4_good re F hre s i nd).1 hc hn
          · simp only [RE_alt3, lpar_pos s i _ h, node_init, addF_e, hres2,
              rpar_pos s i2 _ h3, addF_2, hres4, free3_3, Bool.true_and]
            exact (RE_alt4_good re F hre s i nd).2 hb
        · rw [hres4] at hspec4
          obtain ⟨hi3j, hj, hok4, t4, he4, hlab4, hfr4⟩ := hspec4
          subst he4; subst hok4
          simp only [add_3] at hres4
          refine ⟨fun hc hn => ?_, fun hb => ?_⟩
          · simp only [RE_alt3, lpar_pos s i _ h, node_init, addF_e, hres2,
              rpar_pos s i2 _ h3, addF_2, hres4, Bool.true_and]
            rw [finishP_eq _ _ _ hc hn]
            refine ⟨by omega, hj, rfl, _, rfl, rfl, ?_⟩
            rw [fringe_4, fringe_leaf, fringe_leaf, hone, hfr2, htwo, hfr4,
              listSlice_append s i (i + 1) i2 (Nat.le_succ i) (Nat.le_of_lt hi1i2),
              listSlice_append s i i2 (i2 + 1) (by omega) (Nat.le_succ i2),
              listSlice_append s i (i2 + 1) j (by omega) (Nat.le_of_lt hi3j)]
          · simp only [RE_alt3, lpar_pos s i _ h, node_init, addF_e, hres2,
              rpar_pos s i2 _ h3, addF_2, hres4, Bool.true_and]
            exact finishP_isSome _ _ _ _
      · refine ⟨fun hc hn => ?_, fun hb => ?_⟩
        · simp only [RE_alt3, lpar_pos s i _ h, node_init, addF_e, hres2,
            rpar_neg s i2 _ h3, free2_2, Bool.true_and]
          exact (RE_alt4_good re F hre s i nd).1 hc hn
        · simp only [RE_alt3, lpar_pos s i _ h, node_init, addF_e, hres2,
            rpar_neg s i2 _ h3, free2_2, Bool.true_and]
          exact (RE_alt4_good re F hre s i nd).2 hb
  · refine ⟨fun hc hn => ?_, fun hb => ?_⟩
    · simp only [RE_alt3, lpar_neg s i _ h, Bool.true_and]
      exact (RE_alt4_good re F hre s i nd).1 hc hn
    · simp only [RE_alt3, lpar_neg s i _ h, Bool.true_and]
      exact (RE_alt4_good re F hre s i nd).2 hb

lemma RE_alt2_good (re rep : PFun) (F : Nat)
    (hre : PGood re "RE" 1 F) (hrep : PGood rep repLab 2 F)
    (s : List Char) (i : Nat) (nd : CNode) :
    (contigB nd = true → ccount nd ≤ 3 →
      RSpec "RE" s i nd (RE_alt2 re rep nd s i (node_init "RE") true)) ∧
    (2 * (s.length - i) ≤ F →
      (RE_alt2 re rep nd s i (node_init "RE") true).isSome = true) := by
  by_cases h : isSymbolChar (charAt s i) = true
  · have hi : i < s.length := lt_of_symbolChar s i h
    have hone : (String.mk [charAt s i]).data = listSlice s i (i + 1) := by
      rw [listSlice_one s i hi]
    have hspec2 := (hrep s (i + 1)
      (.mk "RE" (some (.mk (String.mk [charAt s i]) none none none none))
        none none none)).1 rfl (by simp [ccount])
    rcases hres2 : rep s (i + 1)
        (.mk "RE" (some (.mk (String.mk [charAt s i]) none none none none))
          none none none)
      with _ | ⟨_ | j, e2, ok2⟩
    · refine ⟨fun hc hn => ?_, fun hb => ?_⟩
      · simp only [RE_alt2, symbol_pos s i _ h, node_init, addF_e, hres2, Bool.true_and]
        exact trivial
      · have hb2 : 2 * (s.length - (i + 1)) + 2 ≤ F := by omega
        have := (hrep s (i + 1)
          (.mk "RE" (some (.mk (String.mk [charAt s i]) none none none none))
            none none none)).2 hb2
        rw [hres2] at this
        exact absurd this (by decide)
    · rw [hres2] at hspec2
      obtain ⟨he2, hok2⟩ := hspec2
      subst he2; subst hok2
      refine ⟨fun hc hn => ?_, fun hb => ?_⟩
      · simp only [RE_alt2, symbol_pos s i _ h, node_init, addF_e, hres2, free1_1,
          Bool.true_and]
        exact (RE_alt3_good re rep F hre hrep s i nd).1 hc hn
      · simp only [RE_alt2, symbol_pos s i _ h, node_init, addF_e, hres2, free1_1,
          Bool.true_and]
        exact (RE_alt3_good re rep F hre hrep s i nd).2 hb
    · rw [hres2] at hspec2
      obtain ⟨hi1j, hj, hok2, t2, he2, hlab2, hfr2⟩ := hspec2
      subst he2; subst hok2
      simp only [add_1] at hres2
      refine ⟨fun hc hn => ?_, fun hb => ?_⟩
      · simp only [RE_alt2, symbol_pos s i _ h, node_init, addF_e, hres2, Bool.true_and]
        rw [finishP_eq _ _ _ hc hn]
        refine ⟨Nat.lt_trans (Nat.lt_succ_self i) hi1j, hj, rfl, _, rfl, rfl, ?_⟩
        rw [fringe_2, fringe_leaf, hone, hfr2,
          listSlice_append s i (i + 1) j (Nat.le_succ i) (Nat.le_of_lt hi1j)]
      · simp only [RE_alt2, symbol_pos s i _ h, node_init, addF_e, hres2, Bool.true_and]
        exact finishP_isSome _ _ _ _
  · refine ⟨fun hc hn => ?_, fun hb => ?_⟩
    · simp only [RE_alt2, symbol_neg s i _ h, Bool.true_and]
      exact (RE_alt3_good re rep F hre hrep s i nd).1 hc hn
    · simp only [RE_alt2, symbol_neg s i _ h, Bool.true_and]
      exact (RE_alt3_good re rep F hre hrep s i nd).2 hb

lemma RE_alt1_good (re rep : PFun) (F : Nat)
    (hre : PGood re "RE" 1 F) (hrep : PGood rep repLab 2 F)
    (s : List Char) (i : Nat) (nd : CNode) :
    (contigB nd = true → ccount nd ≤ 3 →
      RSpec "RE" s i nd (RE_alt1 re rep nd s i)) ∧
    (2 * (s.length - i) ≤ F → (RE_alt1 re rep nd s i).isSome = true) := by
  by_cases h : charAt s i = '#'
  · have hi : i < s.length := lt_of_charAt_ne s i (by rw [h]; decide)
    have hone : ("#" : String).data = listSlice s i (i + 1) := by
      rw [listSlice_one s i hi, h]
    have hspec2 := (hrep s (i + 1)
      (.mk "RE" (some (.mk "#" none none none none)) none none none)).1 rfl
      (by simp [ccount])
    rcases hres2 : rep s (i + 1)
        (.mk "RE" (some (.mk "#" none none none none)) none none none)
      with _ | ⟨_ | j, e2, ok2⟩
    · refine ⟨fun hc hn => ?_, fun hb => ?_⟩
      · simp only [RE_alt1, epsilon_pos s i _ h, node_init, addF_e, hres2, Bool.true_and]
        exact trivial
      · have hb2 : 2 * (s.length - (i + 1)) + 2 ≤ F := by omega
        have := (hrep s (i + 1)
          (.mk "RE" (some (.mk "#" none none none none)) none none none)).2 hb2
        rw [hres2] at this
        exact absurd this (by decide)
    · rw [hres2] at hspec2
      obtain ⟨he2, hok2⟩ := hspec2
      subst he2; subst hok2
      refine ⟨fun hc hn => ?_, fun hb => ?_⟩
      · simp only [RE_alt1, epsilon_pos s i _ h, node_init, addF_e, hres2, free1_1,
          Bool.true_and]
        exact (RE_alt2_good re rep F hre hrep s i nd).1 hc hn
      · simp only [RE_alt1, epsilon_pos s i _ h, node_init, addF_e, hres2, free1_1,
          Bool.true_and]
        exact (RE_alt2_good re rep F hre hrep s i nd).2 hb
    · rw [hres2] at hspec2
      obtain ⟨hi1j, hj, hok2, t2, he2, hlab2, hfr2⟩ := hspec2
      subst he2; subst hok2
      simp only [add_1] at hres2
      refine ⟨fun hc hn => ?_, fun hb => ?_⟩
      · simp only [RE_alt1, epsilon_pos s i _ h, node_init, addF_e, hres2, Bool.true_and]
        rw [finishP_eq _ _ _ hc hn]
        refine ⟨Nat.lt_trans (Nat.lt_succ_self i) hi1j, hj, rfl, _, rfl, rfl, ?_⟩
        rw [fringe_2, fringe_leaf, hone, hfr2,
          listSlice_append s i (i + 1) j (Nat.le_succ i) (Nat.le_of_lt hi1j)]
      · simp only [RE_alt1, epsilon_pos s i _ h, node_init, addF_e, hres2, Bool.true_and]
        exact finishP_isSome _ _ _ _
  · refine ⟨fun hc hn => ?_, fun hb => ?_⟩
    · simp only [RE_alt1, epsilon_neg s i _ h, Bool.true_and]
      exact (RE_alt2_good re rep F hre hrep s i nd).1 hc hn
    · simp only [RE_alt1, epsilon_neg s i _ h, Bool.true_and]
      exact (RE_alt2_good re rep F hre hrep s i nd).2 hb

/-- Master invariant, by induction on the fuel: both nonterminal
procedures satisfy their behaviour contract, and the stated fuel bounds
(linear in the unread part of the input) prevent fuel exhaustion. -/
lemma REgood (f : Nat) : PGood (RE f) "RE" 1 f ∧ PGood (RE_prime f) repLab 2 f := by
  induction f with
  | zero =>
    refine ⟨fun s i nd => ⟨fun hc hn => trivial, fun hb => absurd hb (by omega)⟩,
      fun s i nd => ⟨fun hc hn => trivial, fun hb => absurd hb (by omega)⟩⟩
  | succ f ih =>
    refine ⟨fun s i nd => ⟨fun hc hn => ?_, fun hb => ?_⟩,
      fun s i nd => ⟨fun hc hn => ?_, fun hb => ?_⟩⟩
    · exact (RE_alt1_good (RE f) (RE_prime f) f ih.1 ih.2 s i nd).1 hc hn
    · exact (RE_alt1_good (RE f) (RE_prime f) f ih.1 ih.2 s i nd).2 (by omega)
    · exact (REp_alt1_good (RE f) (RE_prime f) f ih.1 ih.2 s i nd).1 hc hn
    · exact (REp_alt1_good (RE f) (RE_prime f) f ih.1 ih.2 s i nd).2 (by omega)

lemma kidsList_e (lab : String) : kidsList (.mk lab none none none none) = [] := rfl

lemma kidsList_1 (lab : String) (x : CNode) :
    kidsList (.mk lab (some x) none none none) = [x] := rfl

/-- Anatomy of a successful `parse` run: the top-level `RE` succeeded,
its final cursor reads NUL, exactly one `RE`-labelled node hangs off the
root, and its leaves spell the consumed slice of the input. -/
lemma parse_success_shape (s : List Char) (hs : parse s = true) :
    ∃ j t, RE (parseFuel s) s 0 (node_init "Root") =
        some (some j, node_add_child (node_init "Root") t, true) ∧
      charAt s j = Char.ofNat 0 ∧ 0 < j ∧ j ≤ s.length ∧ t.content = "RE" ∧
      fringe t = listSlice s 0 j ∧
      parseFull s = (true, node_add_child (node_init "Root") t, true) := by
  have hspec := ((REgood (parseFuel s)).1 s 0 (node_init "Root")).1 rfl (by decide)
  rcases hres : RE (parseFuel s) s 0 (node_init "Root") with _ | ⟨_ | j, nd, ok⟩
  · rw [parse] at hs
    simp only [parseFull, hres] at hs
    exact absurd hs (by decide)
  · rw [parse] at hs
    simp only [parseFull, hres] at hs
    exact absurd hs (by decide)
  · rw [hres] at hspec
    obtain ⟨h0j, hjlen, hok, t, hnd, hlab, hfr⟩ := hspec
    subst hnd; subst hok
    rw [parse] at hs
    simp only [parseFull, hres] at hs
    have hchar : charAt s j = Char.ofNat 0 := of_decide_eq_true hs
    refine ⟨j, t, rfl, hchar, h0j, hjlen, hlab, hfr, ?_⟩
    simp only [parseFull, hres, hchar]
    simp

lemma end_eq_length (s : List Char) (hnul : Char.ofNat 0 ∉ s) (j : Nat)
    (hj : j ≤ s.length) (hc : charAt s j = Char.ofNat 0) : j = s.length := by
  rcases Nat.lt_or_ge j s.length with hlt | hge
  · exact absurd (hc ▸ charAt_mem s j hlt) hnul
  · omega

/-- Specification-side helper for C4: clear the first `n` occupied
entries of a slot list, skipping empty slots. -/
def clearFirstSomes : List (Option CNode) → Nat → List (Option CNode)
  | l, 0 => l
  | [], _ + 1 => []
  | none :: r, n + 1 => none :: clearFirstSomes r (n + 1)
  | some _ :: r, n + 1 => none :: clearFirstSomes r n

/-- Specification-side helper for C4: clear the last `n` occupied slot
entries (scanning from the highest index backward, skipping empty
slots), leaving all earlier entries unchanged. -/
def clearLastSomes (l : List (Option CNode)) (n : Nat) : List (Option CNode) :=
  (clearFirstSomes l.reverse n).reverse

lemma free_clearLast (nd : CNode) (n : Nat) (h1 : 1 ≤ n) (h2 : n ≤ ccount nd) :
    (node_free_last_childs nd (n : Int)).content = nd.content ∧
    (node_free_last_childs nd (n : Int)).slots = clearLastSomes nd.slots n := by
  have h4 : n ≤ 4 := by
    rcases nd with ⟨lab, _ | a, _ | b, _ | c, _ | d⟩ <;> simp [ccount] at h2 <;> omega
  rcases nd with ⟨lab, _ | a, _ | b, _ | c, _ | d⟩ <;>
    simp [ccount] at h2 <;>
    interval_cases n <;>
    first
      | omega
      | (refine ⟨rfl, ?_⟩
         simp [node_free_last_childs, clearLastSomes, clearFirstSomes, CNode.slots])

/-- Claim C1 (amended): `parse s` returns true only if the top-level
`RE` derivation succeeds with its final cursor reading the terminating
NUL — for NUL-free inputs (the only strings representable in C) this
means the entire input was consumed.  `parse "a+b"` succeeds, and
`parse "ab"` also succeeds, because concatenation (`RE RE`) is one of
the grammar alternatives. -/
theorem claim_C1 :
    (∀ s : List Char, parse s = true →
      ∃ j t, RE (parseFuel s) s 0 (node_init "Root") =
          some (some j, node_add_child (node_init "Root") t, true) ∧
        charAt s j = Char.ofNat 0 ∧ (Char.ofNat 0 ∉ s → j = s.length)) ∧
    parse ['a', '+', 'b'] = true ∧ parse ['a', 'b'] = true := by
  refine ⟨fun s hs => ?_, rfl, rfl⟩
  obtain ⟨j, t, hre, hchar, h0, hlen, -, -, -⟩ := parse_success_shape s hs
  exact ⟨j, t, hre, hchar, fun hnul => end_eq_length s hnul j hlen hchar⟩

/-- Claim C1, counterexample to the claim as stated: it asserts that
`parse "ab"` fails, but the code accepts `"ab"` (the grammar contains
the concatenation alternative `RE RE`). -/
theorem claim_C1_counterexample : parse ['a', 'b'] = true := rfl

/-- Witness for C1 at the concrete accepted input `"a+b"`. -/
theorem claim_C1_witness :
    ∃ j t, RE (parseFuel ['a', '+', 'b']) ['a', '+', 'b'] 0 (node_init "Root") =
        some (some j, node_add_child (node_init "Root") t, true) ∧
      charAt ['a', '+', 'b'] j = Char.ofNat 0 ∧
      (Char.ofNat 0 ∉ (['a', '+', 'b'] : List Char) → j = (['a', '+', 'b'] : List Char).length) :=
  claim_C1.1 ['a', '+', 'b'] rfl

/-- Claim C2, counterexample to the claim as stated: on the accepted
input `"#"` the tree's single terminal leaf is labelled `#`, so the
concatenation in which `#` leaves contribute the empty string is `""`,
not the original input `"#"`. -/
theorem claim_C2_counterexample :
    parse ['#'] = true ∧ fringeSpec (parseFull ['#']).2.1 = [] ∧
    ([] : List Char) ≠ ['#'] := by
  refine ⟨rfl, ?_, by decide⟩
  have h : parseFull ['#'] =
      (true, CNode.mk "Root" (some (CNode.mk "RE"
        (some (CNode.mk "#" none none none none)) none none none)) none none none,
        true) := rfl
  rw [h]
  simp [fringeSpec, fringeSpecO]

/-- Claim C2 (amended): for every NUL-free input accepted by `parse`,
concatenating the labels of the produced tree's terminal leaves in
left-to-right order — every leaf contributing its own label, a `#` leaf
contributing the string `"#"` (the character it consumed) — yields
exactly the original input string. -/
theorem claim_C2 : ∀ s : List Char, Char.ofNat 0 ∉ s → parse s = true →
    fringe (parseFull s).2.1 = s := by
  intro s hnul hs
  obtain ⟨j, t, -, hchar, -, hlen, -, hfr, hfull⟩ := parse_success_shape s hs
  have hj := end_eq_length s hnul j hlen hchar
  rw [hfull]
  show fringe (.mk "Root" (some t) none none none) = s
  rw [fringe_1, hfr, hj, listSlice_all]

/-- Witness for C2 at the concrete accepted input `"a+b"`. -/
theorem claim_C2_witness :
    Char.ofNat 0 ∉ (['a', '+', 'b'] : List Char) ∧ parse ['a', '+', 'b'] = true ∧
    fringe (parseFull ['a', '+', 'b']).2.1 = ['a', '+', 'b'] :=
  ⟨by decide, rfl, claim_C2 ['a', '+', 'b'] (by decide) rfl⟩

/-- Claim C3: a failed attempt leaves the caller's tree exactly as it
was.  (i) attaching a child to a node with room and rolling back one
child restores the node exactly; (ii) and (iii): whenever `RE` or
`RE_prime` returns false, the caller's node is returned in exactly its
previous state (every internal failing alternative having been rolled
back before the next was tried). -/
theorem claim_C3 :
    (∀ nd ch : CNode, contigB nd = true → ccount nd ≤ 3 →
      node_free_last_childs (node_add_child nd ch) 1 = nd) ∧
    (∀ (f : Nat) (s : List Char) (i : Nat) (nd nd2 : CNode) (ok : Bool),
      contigB nd = true → ccount nd ≤ 3 →
      RE f s i nd = some (none, nd2, ok) → nd2 = nd) ∧
    (∀ (f : Nat) (s : List Char) (i : Nat) (nd nd2 : CNode) (ok : Bool),
      contigB nd = true → ccount nd ≤ 3 →
      RE_prime f s i nd = some (none, nd2, ok) → nd2 = nd) := by
  refine ⟨fun nd ch hc hn => (addF_room nd ch hc hn).2.1,
    fun f s i nd nd2 ok hc hn hres => ?_, fun f s i nd nd2 ok hc hn hres => ?_⟩
  · have hspec := ((REgood f).1 s i nd).1 hc hn
    rw [hres] at hspec
    exact hspec.1
  · have hspec := ((REgood f).2 s i nd).1 hc hn
    rw [hres] at hspec
    exact hspec.1

/-- Witness for C3: rollback after one attach on the root node, and the
failing run of `RE` on the input `"+"` returning the root untouched. -/
theorem claim_C3_witness :
    node_free_last_childs (node_add_child (node_init "Root") (node_init "a")) 1 =
      node_init "Root" ∧
    node_init "Root" = node_init "Root" :=
  ⟨claim_C3.1 (node_init "Root") (node_init "a") rfl (by decide),
   claim_C3.2.1 4 ['+'] 0 (node_init "Root") (node_init "Root") true rfl (by decide) rfl⟩

/-- Claim C4, counterexample to the claim as stated: it quantifies over
every `n` with at least `n` attached children, hence allows `n = 0`;
but called with `n = 0` on a node whose highest slot is occupied, the
code frees that child (the decrement happens before the `n == 0` test),
rather than destroying exactly the last zero children. -/
theorem claim_C4_counterexample :
    ccount (CNode.mk "N" none none none (some (node_init "a"))) = 1 ∧
    (node_free_last_childs (CNode.mk "N" none none none (some (node_init "a"))) 0).slots =
      [none, none, none, none] ∧
    node_free_last_childs (CNode.mk "N" none none none (some (node_init "a"))) 0 ≠
      CNode.mk "N" none none none (some (node_init "a")) := by
  refine ⟨rfl, rfl, ?_⟩
  simp [node_free_last_childs, node_init]

/-- Claim C4 (amended): for every node with at least `n` attached
children and `n ≥ 1`, `node_free_last_childs (node, n)` destroys exactly
the last `n` attached children (scanning from the highest slot index
backward, skipping empty slots), clears those slots, and leaves all
earlier children and the node's label intact. -/
theorem claim_C4 : ∀ (nd : CNode) (n : Nat), 1 ≤ n → n ≤ ccount nd →
    (node_free_last_childs nd (n : Int)).content = nd.content ∧
    (node_free_last_childs nd (n : Int)).slots = clearLastSomes nd.slots n :=
  free_clearLast

/-- Witness for C4 on a node with two attached children and `n = 1`. -/
theorem claim_C4_witness :
    (node_free_last_childs
      (CNode.mk "N" (some (node_init "a")) (some (node_init "b")) none none)
      ((1 : Nat) : Int)).content =
      (CNode.mk "N" (some (node_init "a")) (some (node_init "b")) none none).content ∧
    (node_free_last_childs
      (CNode.mk "N" (some (node_init "a")) (some (node_init "b")) none none)
      ((1 : Nat) : Int)).slots =
      clearLastSomes
        (CNode.mk "N" (some (node_init "a")) (some (node_init "b")) none none).slots 1 :=
  claim_C4 (CNode.mk "N" (some (node_init "a")) (some (node_init "b")) none none) 1
    (by decide) (by decide)

/-- Claim C5: `parse "a*"` succeeds and produces exactly the derivation
in which `RE` uses the alternative `symbol RE_prime` and the inner
`RE_prime` uses the single-star alternative — the first listed
alternative that succeeds wins. -/
theorem claim_C5 :
    parseFull ['a', '*'] =
      (true,
        CNode.mk "Root"
          (some (CNode.mk "RE"
            (some (CNode.mk "a" none none none none))
            (some (CNode.mk repLab (some (CNode.mk "*" none none none none)) none none none))
            none none))
          none none none,
        true) := rfl

/-- Claim C6: on every successful parse the synthetic root node labelled
`Root` has exactly one attached child, labelled `RE`; and `parse "#"`
succeeds with that `RE` node's single child the leaf `#`. -/
theorem claim_C6 :
    (∀ (s : List Char) (nd : CNode) (ok : Bool), parseFull s = (true, nd, ok) →
      ∃ t, kidsList nd = [t] ∧ t.content = "RE") ∧
    parseFull ['#'] =
      (true,
        CNode.mk "Root"
          (some (CNode.mk "RE" (some (CNode.mk "#" none none none none)) none none none))
          none none none,
        true) := by
  refine ⟨fun s nd ok hfull => ?_, rfl⟩
  have hs : parse s = true := by rw [parse, hfull]
  obtain ⟨j, t, -, -, -, -, hlab, -, hfull2⟩ := parse_success_shape s hs
  have hnd : nd = node_add_child (node_init "Root") t :=
    congrArg (fun p => p.2.1) (hfull.symm.trans hfull2)
  subst hnd
  exact ⟨t, rfl, hlab⟩

/-- Witness for C6 at the concrete accepted input `"#"`. -/
theorem claim_C6_witness :
    ∃ t, kidsList (CNode.mk "Root"
      (some (CNode.mk "RE" (some (CNode.mk "#" none none none none)) none none none))
      none none none) = [t] ∧ t.content = "RE" :=
  claim_C6.1 ['#'] _ true rfl

/-- Claim C7: rejected inputs are reported purely through the boolean
result of `parse`; in particular the empty input and the unterminated
parenthesis `"(a"` are rejected. -/
theorem claim_C7 : parse [] = false ∧ parse ['(', 'a'] = false := ⟨rfl, rfl⟩

/-- Claim C8: the parser terminates on every input: with fuel linear in
the unread input (`RE` never reaches the fuel cutoff when given
`2*(length - i) + 1`, `RE_prime` when given `2*(length - i) + 2`,
because every cycle of mutual recursion consumes at least one character,
except `RE_prime` calling `RE` at the same position, which `RE` follows
only after consuming), and in particular the fuel supplied by `parse`
suffices for any input. -/
theorem claim_C8 :
    (∀ (f : Nat) (s : List Char) (i : Nat) (nd : CNode),
      2 * (s.length - i) + 1 ≤ f → (RE f s i nd).isSome = true) ∧
    (∀ (f : Nat) (s : List Char) (i : Nat) (nd : CNode),
      2 * (s.length - i) + 2 ≤ f → (RE_prime f s i nd).isSome = true) ∧
    (∀ s : List Char, (RE (parseFuel s) s 0 (node_init "Root")).isSome = true) := by
  refine ⟨fun f s i nd hb => ((REgood f).1 s i nd).2 hb,
    fun f s i nd hb => ((REgood f).2 s i nd).2 hb,
    fun s => ((REgood (parseFuel s)).1 s 0 (node_init "Root")).2 ?_⟩
  simp only [parseFuel]
  omega

/-- Witness for C8 at fuel 3 on the input `"a"`. -/
theorem claim_C8_witness :
    2 * ((['a'] : List Char).length - 0) + 1 ≤ 3 ∧
    (RE 3 ['a'] 0 (node_init "Root")).isSome = true :=
  ⟨by decide, claim_C8.1 3 ['a'] 0 (node_init "Root") (by decide)⟩

/-- Claim C9: in every run of `parse`, every `node_add_child` call finds
an empty slot, so no child is ever silently dropped: the accumulated
no-drop flag of the run is always true (no alternative ever attaches
more than the 4 available constituents to one node). -/
theorem claim_C9 : ∀ s : List Char, (parseFull s).2.2 = true := by
  intro s
  have hspec := ((REgood (parseFuel s)).1 s 0 (node_init "Root")).1 rfl (by decide)
  rcases hres : RE (parseFuel s) s 0 (node_init "Root") with _ | ⟨_ | j, nd, ok⟩
  · simp only [parseFull, hres]
  · rw [hres] at hspec
    simp only [parseFull, hres]
    exact hspec.2
  · rw [hres] at hspec
    simp only [parseFull, hres]
    exact hspec.2.2.1

/-- Claim C10, counterexample to the claim as stated: on the input
`"a)"` the top-level `RE` succeeds (consuming only `"a"`), so `parse`
returns false because of trailing input, yet the `RE` child is still
attached to the root when `parse` returns — the root's child slots are
not all NULL. -/
theorem claim_C10_counterexample :
    parse ['a', ')'] = false ∧ ccount (parseFull ['a', ')']).2.1 ≠ 0 :=
  ⟨rfl, by decide⟩

/-- Claim C10 (amended): if `parse` returns false because the top-level
`RE` invocation itself returned false, then the root node is returned
with all child slots NULL (the failed `RE` removed its own node and
everything under it); when `parse` returns false only because of
trailing unconsumed input, the `RE` child remains attached until the
caller's explicit cleanup. -/
theorem claim_C10 : ∀ (s : List Char) (nd : CNode) (ok : Bool),
    RE (parseFuel s) s 0 (node_init "Root") = some (none, nd, ok) →
    parse s = false ∧ nd = node_init "Root" := by
  intro s nd ok hres
  have hspec := ((REgood (parseFuel s)).1 s 0 (node_init "Root")).1 rfl (by decide)
  rw [hres] at hspec
  refine ⟨?_, hspec.1⟩
  rw [parse]
  simp only [parseFull, hres]

/-- Witness for C10 at the rejected input `"+"`. -/
theorem claim_C10_witness :
    parse ['+'] = false ∧ node_init "Root" = node_init "Root" :=
  claim_C10 ['+'] (node_init "Root") true rfl


end REParser
